import Mathlib

/-!
Shallow embedding of `src/server.js` (a batch blog-enrichment pipeline):
the identifier-set parser (lines 25-36), the content generator
`processDataWithAI` (lines 40-106) and the batch orchestrator
`processEntries` (lines 108-152).

External collaborators (the HTTP transport, the database client and the
JavaScript runtime's `JSON.parse`) are modelled as explicit parameters,
exactly at the interfaces the code consumes.  Every definition below is
executable, so concrete runs can be checked by `rfl` or `decide`.
-/

/-- The set of whitespace characters recognised by the model of JavaScript's
`String.prototype.trim` (space, tab, line feed, carriage return, vertical
tab, form feed).  Only its disjointness from backtick and letter characters
matters for the theorems below. -/
def isWs (c : Char) : Bool :=
  c == ' ' || c == '\t' || c == '\n' || c == '\r' || c == Char.ofNat 11 || c == Char.ofNat 12

/-- Drop leading whitespace (the left half of `trim`). -/
def trimL (s : List Char) : List Char := s.dropWhile isWs

/-- Drop trailing whitespace (the right half of `trim`). -/
def trimR (s : List Char) : List Char := (trimL s.reverse).reverse

/-- Model of JavaScript `String.prototype.trim` on character lists. -/
def trimChars (s : List Char) : List Char := trimR (trimL s)

/-- Boolean list-prefix test (models literal matching of the regex
alternatives at a given position). -/
def isPre : List Char → List Char → Bool
  | [], _ => true
  | _ :: _, [] => false
  | a :: xs, b :: ys => a == b && isPre xs ys

/-- The characters of the longer regex alternative in
`jsonString.replace(/```json|```/g, "")` (server.js line 90). -/
def fenceJson : List Char := "```json".data

/-- The characters of the shorter regex alternative. -/
def fencePlain : List Char := "```".data

/-- Fuelled left-to-right scan implementing the global replacement
`s.replace(/```json|```/g, "")` of server.js line 90: at each position the
scanner first tries the alternative `fenceJson`, then `fencePlain`, then
keeps the character and advances.  The fuel is always instantiated with the
length of the list, which suffices. -/
def stripGo : Nat → List Char → List Char
  | 0, s => s
  | Nat.succ f, s =>
    if isPre fenceJson s then stripGo f (s.drop 7)
    else if isPre fencePlain s then stripGo f (s.drop 3)
    else
      match s with
      | [] => []
      | c :: rest => c :: stripGo f rest

/-- Model of `s.replace(/```json|```/g, "")` (server.js line 90). -/
def stripFences (s : List Char) : List Char := stripGo s.length s

/-- The composite post-processing of the completion body, server.js lines
87-90: `aiResponse.trim()`, then the global fence replacement, then a final
`.trim()`.  The result is the string handed to `JSON.parse`. -/
def jsonExtract (aiResponse : String) : String :=
  String.mk (trimChars (stripFences (trimChars aiResponse.data)))

/-- Split a character list on a separator character; models JavaScript
`String.prototype.split` with a one-character separator (always returns at
least one, possibly empty, token). -/
def splitCh (sep : Char) : List Char → List (List Char)
  | [] => [[]]
  | c :: rest =>
    match splitCh sep rest with
    | [] => if c == sep then [[], []] else [[c]]
    | g :: gs => if c == sep then [] :: g :: gs else (c :: g) :: gs

/-- Decimal digit test. -/
def isDigit (c : Char) : Bool := decide ('0' ≤ c) && decide (c ≤ '9')

/-- Numeric value of a decimal digit character. -/
def digitVal (c : Char) : Nat := c.toNat - '0'.toNat

/-- Value of a list of decimal digits. -/
def digitsToNat (ds : List Char) : Nat :=
  ds.foldl (fun acc c => acc * 10 + digitVal c) 0

/-- Model of the decimal-integer fragment of JavaScript `Number(...)`:
`none` stands for `NaN`.  A whitespace-only (in particular empty) string is
`0`; an optional sign followed by at least one decimal digit is the signed
value; every other string of this fragment is `NaN`.  (Fractional,
exponent, hexadecimal and infinity forms are outside the fragment the
pipeline's identifier specs exercise.) -/
def jsNumber (s : String) : Option Int :=
  match trimChars s.data with
  | [] => some 0
  | '-' :: ds =>
    if !ds.isEmpty && ds.all isDigit then some (-(digitsToNat ds : Int)) else none
  | '+' :: ds =>
    if !ds.isEmpty && ds.all isDigit then some ((digitsToNat ds : Int)) else none
  | ds =>
    if ds.all isDigit then some ((digitsToNat ds : Int)) else none

/-- Model of `Array.from({ length: max - min + 1 }, (_, i) => min + i)`
(server.js line 30).  `none` stands for `NaN`; a `NaN` or non-positive
length yields the empty array, exactly as `Array.from` does. -/
def rangeList (mn mx : Option Int) : List (Option Int) :=
  match mn, mx with
  | some a, some b =>
    if b - a + 1 ≤ 0 then []
    else (List.range (b - a + 1).toNat).map (fun i => some (a + (i : Int)))
  | _, _ => []

/-- The identifier-set parser, server.js lines 28-36.  `Except.error ()`
models the `console.error` + `process.exit(1)` path (the run terminates
before any processing); `Except.ok l` models assignment to the global
`idList` (whose elements are JavaScript numbers, `none` standing for
`NaN`).  The range branch destructures the first two `Number`-mapped
tokens of `args.split("-")`; a missing token destructures to `undefined`,
whose arithmetic, like `NaN`'s, produces an empty array. -/
def idList (args : String) : Except Unit (List (Option Int)) :=
  if args.data.any (fun c => c == '-') then
    Except.ok
      (rangeList
        (((splitCh '-' args.data).map (fun tok => jsNumber (String.mk tok))).getD 0 none)
        (((splitCh '-' args.data).map (fun tok => jsNumber (String.mk tok))).getD 1 none))
  else if args.data.any (fun c => c == ',') then
    Except.ok ((splitCh ',' args.data).map (fun tok => jsNumber (String.mk tok)))
  else
    Except.error ()

/-- The inclusive ascending sequence `min, min+1, ..., max`, written from
the spec's words for the range form (spec section 4.1); compared against
the source's `rangeList` in the range-form theorem. -/
def ascRange (a b : Int) : List Int :=
  (List.range (b - a + 1).toNat).map (fun i => a + (i : Int))

/-- JSON values, as produced by the runtime's `JSON.parse`.  Numbers are
modelled as integers (the pipeline never computes with them). -/
inductive Json where
  | null : Json
  | bool (b : Bool) : Json
  | num (n : Int) : Json
  | str (s : String) : Json
  | arr (elems : List Json) : Json
  | obj (fields : List (String × Json)) : Json

/-- JavaScript property access `v[k]` on a parsed JSON value: `none` is
`undefined` (also for access on a non-object value). -/
def Json.getF : Json → String → Option Json
  | Json.obj fields, k => List.lookup k fields
  | _, _ => none

/-- JavaScript truthiness of a possibly-`undefined` JSON value, as used by
the checks `!blogContent`, `!blogContent.main_title`,
`!blogContent.main_description` (server.js line 132). -/
def jsTruthy : Option Json → Bool
  | none => false
  | some Json.null => false
  | some (Json.bool b) => b
  | some (Json.num n) => n != 0
  | some (Json.str s) => s != ""
  | some (Json.arr _) => true
  | some (Json.obj _) => true

/-- Field access through the `Option` wrapping of the generator's result:
`undefined` propagates. -/
def getOpt (v : Option Json) (k : String) : Option Json :=
  v.bind (fun j => Json.getF j k)

/-- The argument `processDataWithAI` receives: JavaScript is untyped, so
the caller may pass a string or any non-string value; the guard at
server.js line 41 (`!text || typeof text !== "string"`) rejects every
non-string and the empty string. -/
inductive GenInput where
  | strIn (s : String) : GenInput
  | nonString : GenInput

/-- The model identifier constant, server.js line 16. -/
def MODEL : String := "google/gemini-2.0-flash-001"

/-- The request the generator posts to the completion endpoint (server.js
lines 47-85): the parts the theorems observe are the model name, the user
message content, and the token ceiling.  (The fixed system instruction and
the sampling parameters temperature 0.7 / top-p 0.9 are constants of the
same request literal and are not consumed by any claim.) -/
structure ApiRequest where
  modelName : String
  userContent : String
  maxTokens : Nat

/-- A transport- or API-level failure of the completion call (the `catch`
at server.js line 99): a message plus the optional error response body. -/
structure ApiError where
  message : String
  responseBody : Option String

/-- A successful completion response: `content` models
`response.data.choices?.[0]?.message?.content`, with `none` for an absent
chain of fields. -/
structure ApiResponse where
  content : Option String

/-- The request built for a given prompt text: the user message is
`text.slice(0, 1000)` (server.js line 75). -/
def mkRequest (s : String) : ApiRequest :=
  { modelName := MODEL, userContent := String.mk (s.data.take 1000), maxTokens := 800 }

/-- The completion body actually processed: server.js line 87,
`response.data.choices?.[0]?.message?.content || "{}"` (an absent or empty
content string is replaced by the literal `"{}"`). -/
def contentOrDefault (resp : ApiResponse) : String :=
  match resp.content with
  | none => "{}"
  | some c => if c = "" then "{}" else c

/-- The content generator `processDataWithAI` (server.js lines 40-106),
with its two external collaborators passed explicitly: `transport` is the
`axios.post` call (`Except.error` standing for a thrown transport/API
error) and `jsonParse` is the runtime's `JSON.parse` (`none` standing for
a thrown parse error, which the inner `catch` converts to `null`).  The
second component of the result is the list of transport calls made, in
order, so call counts are observable. -/
def processDataWithAI (transport : ApiRequest → Except ApiError ApiResponse)
    (jsonParse : String → Option Json) (text : GenInput) :
    Option Json × List ApiRequest :=
  match text with
  | GenInput.nonString => (none, [])
  | GenInput.strIn s =>
    if s = "" then (none, [])
    else
      match transport (mkRequest s) with
      | Except.error _ => (none, [mkRequest s])
      | Except.ok resp =>
        (jsonParse (jsonExtract (contentOrDefault resp)), [mkRequest s])

/-- A row of the source table as projected by the fetch at server.js lines
110-113 (`select("id, question, answer, category_display_name")`).  The
`id` is a JavaScript number (`none` = `NaN`). -/
structure Entry where
  id : Option Int
  question : String
  answer : String
  category_display_name : String

/-- The row handed to `supabase.from(toTable).insert({...})` at server.js
lines 137-143.  The four content fields are whatever JSON values (or
`undefined`, i.e. `none`) property access on `blogContent` produced. -/
structure InsertRow where
  category_display_name : String
  title : Option Json
  description : Option Json
  read_more_titles : Option Json
  read_more_texts : Option Json

/-- The orchestrator's external collaborators: the source-table point query
(server.js lines 110-113; `Except.error` is the `fetchError` channel, and
an empty row list covers both a `null` and an empty `data`, which take the
same skip branch at lines 120-123), the content generator applied to a
prompt string, and the destination-table insert (server.js line 137;
`some msg` is the `insertError` channel). -/
structure OrchEnv where
  fetch : Option Int → Except String (List Entry)
  aiGen : String → Option Json
  insertResult : InsertRow → Option String

/-- Per-identifier terminal state of the orchestrator's loop body, one
constructor per `continue`/completion site of server.js lines 109-151. -/
inductive Outcome where
  | fetchErr : Outcome
  | noData : Outcome
  | invalidContent : Outcome
  | insertErr : Outcome
  | saved : Outcome
deriving DecidableEq

/-- The prompt string built at server.js lines 128-130:
the template literal with single spaces between the three fields. -/
def promptOf (e : Entry) : String :=
  e.question ++ " " ++ e.answer ++ " " ++ e.category_display_name

/-- The destination row built from the first fetched entry and the
generator's result (server.js lines 137-143). -/
def mkRow (e : Entry) (blogContent : Option Json) : InsertRow :=
  { category_display_name := e.category_display_name
    title := getOpt blogContent "main_title"
    description := getOpt blogContent "main_description"
    read_more_titles := getOpt blogContent "read_more_titles"
    read_more_texts := getOpt blogContent "read_more_descriptions" }

/-- One iteration of the orchestrator loop (server.js lines 109-151) for a
single identifier: the terminal outcome, plus the insert call made for
this identifier if any (the destination store receives the row whether or
not the insert reports an error). -/
def processOne (env : OrchEnv) (id : Option Int) : Outcome × Option InsertRow :=
  match env.fetch id with
  | Except.error _ => (Outcome.fetchErr, none)
  | Except.ok entries =>
    match entries with
    | [] => (Outcome.noData, none)
    | e :: _ =>
      let blogContent := env.aiGen (promptOf e)
      if jsTruthy blogContent && jsTruthy (getOpt blogContent "main_title")
          && jsTruthy (getOpt blogContent "main_description") then
        match env.insertResult (mkRow e blogContent) with
        | some _ => (Outcome.insertErr, some (mkRow e blogContent))
        | none => (Outcome.saved, some (mkRow e blogContent))
      else (Outcome.invalidContent, none)

/-- The orchestrator `processEntries` (server.js lines 108-152): the loop
over `idList`, returning the per-identifier trace in order. -/
def processEntries (env : OrchEnv) : List (Option Int) → List (Option Int × Outcome × Option InsertRow)
  | [] => []
  | id :: rest => (id, processOne env id) :: processEntries env rest

/-- The insert calls the destination store receives during a run, in
order. -/
def insertsOf (trace : List (Option Int × Outcome × Option InsertRow)) : List InsertRow :=
  trace.filterMap (fun x => x.2.2)

/-- The fully composed per-run environment: the orchestrator of the source
invokes `processDataWithAI` directly on the prompt string (server.js lines
128-130); abstract orchestrator environments are instantiated this way. -/
def pipelineEnv (fetch : Option Int → Except String (List Entry))
    (insertResult : InsertRow → Option String)
    (transport : ApiRequest → Except ApiError ApiResponse)
    (jsonParse : String → Option Json) : OrchEnv :=
  { fetch := fetch
    aiGen := fun t => (processDataWithAI transport jsonParse (GenInput.strIn t)).1
    insertResult := insertResult }

/-- Wrapping a completion body in code fences, as in the round-trip
property of spec section 8. -/
def fenceWrap (s : String) : String := "```json" ++ s ++ "```"

/-- A transport stub that always fails (a network failure). -/
def transport0 : ApiRequest → Except ApiError ApiResponse :=
  fun _ => Except.error { message := "network failure", responseBody := none }

/-- A parse stub on which every body is non-JSON. -/
def parse0 : String → Option Json := fun _ => none

/-- Generated content that passes the orchestrator's validity check. -/
def bcFull : Json :=
  Json.obj [("main_title", Json.str ("T")), ("main_description", Json.str ("D")),
    ("read_more_titles", Json.arr [Json.str ("a"), Json.str ("b"), Json.str ("c")]),
    ("read_more_descriptions", Json.arr [Json.str ("x"), Json.str ("y"), Json.str ("z")])]

/-- Batch scenario environment: fetching id 2 fails, ids 1 and 3 fetch
distinct source rows, generation and insert succeed. -/
def entryC1 (id : Option Int) : Entry :=
  { id := id
    question := "Q"
    answer := "A"
    category_display_name := if id = some 1 then "CatOne" else "CatThree" }

/-- Batch scenario environment, continued: see `entryC1`. -/
def envC1 : OrchEnv :=
  { fetch := fun id =>
      if id = some 2 then Except.error ("forced fetch failure")
      else Except.ok [entryC1 id]
    aiGen := fun _ => some bcFull
    insertResult := fun _ => none }

/-- The destination row the batch scenario inserts for a given source
category. -/
def rowC1 (cat : String) : InsertRow :=
  { category_display_name := cat
    title := some (Json.str ("T"))
    description := some (Json.str ("D"))
    read_more_titles := some (Json.arr [Json.str ("a"), Json.str ("b"), Json.str ("c")])
    read_more_texts := some (Json.arr [Json.str ("x"), Json.str ("y"), Json.str ("z")]) }

/-- The end-to-end scenario source record of spec section 8. -/
def entryC3 : Entry :=
  { id := some 5, question := "Q", answer := "A", category_display_name := "Cat" }

/-- End-to-end scenario environment: one source row, fully valid generated
content, successful insert. -/
def envC3 : OrchEnv :=
  { fetch := fun _ => Except.ok [entryC3]
    aiGen := fun _ => some bcFull
    insertResult := fun _ => none }

/-- Generated content missing `main_description`. -/
def bcC4 : Json := Json.obj [("main_title", Json.str ("OnlyTitle"))]

/-- The source record of the missing-description scenario. -/
def entryC4 : Entry :=
  { id := some 7, question := "Q", answer := "A", category_display_name := "Cat" }

/-- Environment whose generated content is missing `main_description`. -/
def envC4 : OrchEnv :=
  { fetch := fun _ => Except.ok [entryC4]
    aiGen := fun _ => some bcC4
    insertResult := fun _ => none }

/-- An entry for the gate-check scenario. -/
def entryC10 : Entry :=
  { id := some 9, question := "Q", answer := "A", category_display_name := "Cat" }

/-- Generated content with valid main fields but no `read_more_titles` and
no `read_more_descriptions` at all. -/
def fsC10 : List (String × Json) :=
  [("main_title", Json.str ("T")), ("main_description", Json.str ("D"))]

/-- Environment whose generated content has only the two main fields. -/
def envC10 : OrchEnv :=
  { fetch := fun _ => Except.ok [entryC10]
    aiGen := fun _ => some (Json.obj fsC10)
    insertResult := fun _ => none }

/-- The backtick character (code point 96), named for use in proofs about
the fence alternatives. -/
def btk : Char := Char.ofNat 96

/-- The four letters by which the longer fence alternative extends the
shorter one. -/
def jsonTail : List Char := "json".data

instance {ε α : Type} [DecidableEq ε] [DecidableEq α] : DecidableEq (Except ε α) := fun x y =>
  match x, y with
  | Except.ok a, Except.ok b => if h : a = b then isTrue (by rw [h]) else isFalse (by simp [h])
  | Except.error a, Except.error b =>
    if h : a = b then isTrue (by rw [h]) else isFalse (by simp [h])
  | Except.ok _, Except.error _ => isFalse (by simp)
  | Except.error _, Except.ok _ => isFalse (by simp)

/-- Helper: when the fetch returns at least one row and the generated
content passes the truthiness gate of server.js line 132, the orchestrator
makes exactly the insert call `mkRow e blogContent`. -/
lemma processOne_valid (env : OrchEnv) (id : Option Int) (e : Entry) (rest : List Entry)
    (hf : env.fetch id = Except.ok (e :: rest))
    (hv : (jsTruthy (env.aiGen (promptOf e))
          && jsTruthy (getOpt (env.aiGen (promptOf e)) ("main_title"))
          && jsTruthy (getOpt (env.aiGen (promptOf e)) ("main_description"))) = true) :
    (processOne env id).2 = some (mkRow e (env.aiGen (promptOf e))) := by
  simp only [processOne, hf, hv, if_true]
  cases env.insertResult (mkRow e (env.aiGen (promptOf e))) <;> simp

/-- Helper: a JSON value with a truthy property is itself truthy (only
objects have properties). -/
lemma truthy_of_getF (bc : Json) (k : String) (h : jsTruthy (Json.getF bc k) = true) :
    jsTruthy (some bc) = true := by
  cases bc <;> simp_all [Json.getF, jsTruthy]

/-- Claim C2, counterexample: contrary to the claim, the descending range
spec "20-10" is not rejected with an error: `idList` accepts it and
produces the empty identifier sequence (the guard `args.includes("-")`
holds, and `Array.from` with the negative length `10 - 20 + 1` yields
`[]`), so the process does not exit with an error there. -/
theorem idList_descending_not_rejected :
    idList ("20-10") = Except.ok [] ∧ idList ("20-10") ≠ Except.error () := by
  constructor <;> decide

/-- Claim C2, amended: the separator-free spec "abc" is rejected with the
error exit before any processing, while the descending range spec "20-10"
is accepted and yields the empty identifier sequence — no identifiers are
processed, but there is no error exit. -/
theorem idList_error_paths :
    idList ("abc") = Except.error () ∧ idList ("20-10") = Except.ok [] :=
  ⟨rfl, rfl⟩

/-- Claim C6: for every range-form spec whose two dash-separated tokens
are numeric with min ≤ max, the parser produces the inclusive ascending
sequence min, min+1, ..., max. -/
theorem idList_range_form (args : String) (t1 t2 : List Char) (a b : Int)
    (hc : args.data.any (fun c => c == '-') = true)
    (hs : splitCh '-' args.data = [t1, t2])
    (ha : jsNumber (String.mk t1) = some a)
    (hb : jsNumber (String.mk t2) = some b)
    (hab : a ≤ b) :
    idList args = Except.ok ((ascRange a b).map some) := by
  have hlen : ¬ (b - a + 1 ≤ 0) := by omega
  simp [idList, hc, hs, ha, hb, rangeList, hlen, ascRange, List.map_map]

/-- Claim C6, witness: `parse("10-12")` yields `[10, 11, 12]`. -/
theorem idList_range_form_witness :
    idList ("10-12") = Except.ok [some 10, some 11, some 12] := by
  have h := idList_range_form ("10-12") (("10").data) (("12").data) 10 12 rfl rfl rfl rfl
    (by decide)
  exact h

/-- Claim C7: a list-form spec (contains a comma and no dash) is split on
commas and each token goes through `Number`, in input order, one output
per token — duplicates are kept, nothing is reordered or dropped. -/
theorem idList_list_form (args : String)
    (hnd : args.data.any (fun c => c == '-') = false)
    (hc : args.data.any (fun c => c == ',') = true) :
    idList args = Except.ok ((splitCh ',' args.data).map (fun tok => jsNumber (String.mk tok)))
    ∧ ((splitCh ',' args.data).map (fun tok => jsNumber (String.mk tok))).length
        = (splitCh ',' args.data).length := by
  refine ⟨?_, by simp⟩
  simp [idList, hnd, hc]

/-- Claim C7, witness: `parse("5,7,9")` yields `[5, 7, 9]`. -/
theorem idList_list_form_witness :
    idList ("5,7,9") = Except.ok [some 5, some 7, some 9] := by
  have h := (idList_list_form ("5,7,9") rfl rfl).1
  exact h

/-- Claim C5: the content generator never raises past its boundary: a
transport- or API-level error is caught and becomes `null`; a completion
body on which `JSON.parse` fails becomes `null`; and on every input the
operation returns either `null` or a value actually produced by parsing
the (trimmed, fence-stripped) completion body of a successful call. -/
theorem processDataWithAI_null_on_failure
    (transport : ApiRequest → Except ApiError ApiResponse)
    (jsonParse : String → Option Json) :
    (∀ (s : String) (e : ApiError), transport (mkRequest s) = Except.error e →
        (processDataWithAI transport jsonParse (GenInput.strIn s)).1 = none)
    ∧ (∀ (s : String) (resp : ApiResponse), transport (mkRequest s) = Except.ok resp →
        jsonParse (jsonExtract (contentOrDefault resp)) = none →
        (processDataWithAI transport jsonParse (GenInput.strIn s)).1 = none)
    ∧ (∀ input : GenInput,
        (processDataWithAI transport jsonParse input).1 = none
        ∨ ∃ (j : Json) (s : String) (resp : ApiResponse),
            input = GenInput.strIn s
            ∧ transport (mkRequest s) = Except.ok resp
            ∧ jsonParse (jsonExtract (contentOrDefault resp)) = some j
            ∧ (processDataWithAI transport jsonParse input).1 = some j) := by
  refine ⟨?_, ?_, ?_⟩
  · intro s e h
    by_cases hs : s = ""
    · simp [processDataWithAI, hs]
    · simp [processDataWithAI, hs, h]
  · intro s resp h hp
    by_cases hs : s = ""
    · simp [processDataWithAI, hs]
    · simp [processDataWithAI, hs, h, hp]
  · intro input
    cases input with
    | nonString => exact Or.inl rfl
    | strIn s =>
      by_cases hs : s = ""
      · exact Or.inl (by simp [processDataWithAI, hs])
      · cases h : transport (mkRequest s) with
        | error e => exact Or.inl (by simp [processDataWithAI, hs, h])
        | ok resp =>
          cases hp : jsonParse (jsonExtract (contentOrDefault resp)) with
          | none => exact Or.inl (by simp [processDataWithAI, hs, h, hp])
          | some j =>
            exact Or.inr ⟨j, s, resp, rfl, h, hp, by simp [processDataWithAI, hs, h, hp]⟩

/-- Claim C5, witness: a failing transport yields a `null` result. -/
theorem processDataWithAI_null_on_failure_witness :
    (processDataWithAI transport0 parse0 (GenInput.strIn ("hello"))).1 = none :=
  (processDataWithAI_null_on_failure transport0 parse0).1 ("hello")
    { message := "network failure", responseBody := none } rfl

/-- Claim C8: a non-string or empty input short-circuits to `null` with
zero transport calls; for every non-empty string input exactly one
request is sent and its user message is the first 1000 characters of the
input. -/
theorem processDataWithAI_input_guard
    (transport : ApiRequest → Except ApiError ApiResponse)
    (jsonParse : String → Option Json) :
    processDataWithAI transport jsonParse GenInput.nonString = (none, [])
    ∧ processDataWithAI transport jsonParse (GenInput.strIn ("")) = (none, [])
    ∧ ∀ s : String, s ≠ "" →
        (processDataWithAI transport jsonParse (GenInput.strIn s)).2 = [mkRequest s]
        ∧ (mkRequest s).userContent = String.mk (s.data.take 1000) := by
  refine ⟨rfl, rfl, fun s hs => ⟨?_, rfl⟩⟩
  cases h : transport (mkRequest s) <;> simp [processDataWithAI, hs, h]

/-- Claim C8, witness: a non-empty string input sends exactly one request
carrying its 1000-character prefix. -/
theorem processDataWithAI_input_guard_witness :
    (processDataWithAI transport0 parse0 (GenInput.strIn ("hello"))).2 = [mkRequest ("hello")]
    ∧ (mkRequest ("hello")).userContent = String.mk (("hello").data.take 1000) :=
  (processDataWithAI_input_guard transport0 parse0).2.2 ("hello") (by decide)

/-- Claim C1: per-identifier failure isolation.  The run over a
concatenation of identifier segments is the concatenation of the runs, so
whatever happens while processing one identifier (fetch error, no data,
invalid content, insert error) has no effect on the processing of the
others; and in the concrete scenario [1, 2, 3] where fetching id 2
errors, the destination store receives exactly the two inserts for ids 1
and 3, and id 3 is still processed to `saved`. -/
theorem processEntries_failure_isolation :
    (∀ (env : OrchEnv) (ids1 ids2 : List (Option Int)),
        processEntries env (ids1 ++ ids2) = processEntries env ids1 ++ processEntries env ids2)
    ∧ envC1.fetch (some 2) = Except.error ("forced fetch failure")
    ∧ processEntries envC1 [some 1, some 2, some 3] =
        [(some 1, Outcome.saved, some (rowC1 ("CatOne"))),
         (some 2, Outcome.fetchErr, none),
         (some 3, Outcome.saved, some (rowC1 ("CatThree")))]
    ∧ insertsOf (processEntries envC1 [some 1, some 2, some 3])
        = [rowC1 ("CatOne"), rowC1 ("CatThree")] := by
  refine ⟨?_, rfl, rfl, rfl⟩
  intro env ids1 ids2
  induction ids1 with
  | nil => rfl
  | cons id rest ih => simp [processEntries, ih]

/-- Claim C3: when the fetch succeeds with one row and the generated
content passes validation, exactly one destination row is inserted, with
the category copied from the source record, title = the generated
`main_title`, description = the generated `main_description`,
`read_more_titles` = the generated `read_more_titles`, and
`read_more_texts` = the generated `read_more_descriptions`. -/
theorem processOne_destination_row (env : OrchEnv) (id : Option Int) (e : Entry) (bc : Json)
    (hf : env.fetch id = Except.ok [e])
    (hai : env.aiGen (promptOf e) = some bc)
    (ht : jsTruthy (Json.getF bc ("main_title")) = true)
    (hd : jsTruthy (Json.getF bc ("main_description")) = true) :
    (processOne env id).2 = some
      { category_display_name := e.category_display_name
        title := Json.getF bc ("main_title")
        description := Json.getF bc ("main_description")
        read_more_titles := Json.getF bc ("read_more_titles")
        read_more_texts := Json.getF bc ("read_more_descriptions") } := by
  have hbc := truthy_of_getF bc ("main_title") ht
  have h := processOne_valid env id e [] hf (by rw [hai]; simp [getOpt, hbc, ht, hd])
  rw [h, hai]
  rfl

/-- Claim C3, witness: the end-to-end scenario of spec section 8 — source
record (id 5, "Q", "A", "Cat") with fully valid generated content yields
exactly the expected destination row. -/
theorem processOne_destination_row_witness :
    (processOne envC3 (some 5)).2 = some
      { category_display_name := "Cat"
        title := some (Json.str ("T"))
        description := some (Json.str ("D"))
        read_more_titles := some (Json.arr [Json.str ("a"), Json.str ("b"), Json.str ("c")])
        read_more_texts := some (Json.arr [Json.str ("x"), Json.str ("y"), Json.str ("z")]) } := by
  have h := processOne_destination_row envC3 (some 5) entryC3 bcFull rfl rfl
    (by decide) (by decide)
  exact h

/-- Claim C4: when the generated content is `null` or is missing
`main_title` or `main_description`, the orchestrator performs zero
inserts for that identifier, records the skip outcome, and the run
continues with the remaining identifiers. -/
theorem processOne_invalid_content_skip (env : OrchEnv) (id : Option Int) (e : Entry)
    (rest : List Entry) (more : List (Option Int))
    (hf : env.fetch id = Except.ok (e :: rest))
    (hai : env.aiGen (promptOf e) = none
        ∨ ∃ bc : Json, env.aiGen (promptOf e) = some bc
            ∧ (Json.getF bc ("main_title") = none
               ∨ Json.getF bc ("main_description") = none)) :
    processOne env id = (Outcome.invalidContent, none)
    ∧ processEntries env (id :: more)
        = (id, Outcome.invalidContent, none) :: processEntries env more := by
  have hcond : (jsTruthy (env.aiGen (promptOf e))
      && jsTruthy (getOpt (env.aiGen (promptOf e)) ("main_title"))
      && jsTruthy (getOpt (env.aiGen (promptOf e)) ("main_description"))) = false := by
    rcases hai with h | ⟨bc, hbc, h | h⟩
    · simp [h, jsTruthy]
    · simp [hbc, getOpt, h, jsTruthy]
    · simp [hbc, getOpt, h, jsTruthy]
  have h1 : processOne env id = (Outcome.invalidContent, none) := by
    simp [processOne, hf, hcond]
  exact ⟨h1, by simp [processEntries, h1]⟩

/-- Claim C4, witness: content with only `main_title` (no
`main_description`) is skipped with zero inserts and the run continues
with the next identifier. -/
theorem processOne_invalid_content_skip_witness :
    processOne envC4 (some 7) = (Outcome.invalidContent, none)
    ∧ processEntries envC4 [some 7, some 8]
        = (some 7, Outcome.invalidContent, none) :: processEntries envC4 [some 8] :=
  processOne_invalid_content_skip envC4 (some 7) entryC4 [] [some 8] rfl
    (Or.inr ⟨bcC4, rfl, Or.inr rfl⟩)

/-- Claim C10 (implicit): the validity check gates only `main_title` and
`main_description`: for every parsed object with truthy values at those
two keys the insert is performed, and the inserted row's
`read_more_titles`/`read_more_texts` are whatever property access
produced — possibly `undefined` or malformed, with no array or length
constraint. -/
theorem processOne_gates_only_main_fields (env : OrchEnv) (id : Option Int) (e : Entry)
    (rest : List Entry) (fs : List (String × Json))
    (hf : env.fetch id = Except.ok (e :: rest))
    (hai : env.aiGen (promptOf e) = some (Json.obj fs))
    (ht : jsTruthy (Json.getF (Json.obj fs) ("main_title")) = true)
    (hd : jsTruthy (Json.getF (Json.obj fs) ("main_description")) = true) :
    (processOne env id).2 = some (mkRow e (some (Json.obj fs)))
    ∧ (mkRow e (some (Json.obj fs))).read_more_titles
        = Json.getF (Json.obj fs) ("read_more_titles")
    ∧ (mkRow e (some (Json.obj fs))).read_more_texts
        = Json.getF (Json.obj fs) ("read_more_descriptions") := by
  refine ⟨?_, rfl, rfl⟩
  have hbc : jsTruthy (some (Json.obj fs)) = true := rfl
  have h := processOne_valid env id e rest hf
    (by rw [hai]; simp [getOpt, hbc, ht, hd])
  rw [h, hai]

/-- Claim C10, witness: content with only the two main fields is inserted,
the row's `read_more_titles` and `read_more_texts` both being `undefined`. -/
theorem processOne_gates_only_main_fields_witness :
    (processOne envC10 (some 9)).2 = some (mkRow entryC10 (some (Json.obj fsC10)))
    ∧ (mkRow entryC10 (some (Json.obj fsC10))).read_more_titles = none
    ∧ (mkRow entryC10 (some (Json.obj fsC10))).read_more_texts = none := by
  have h := processOne_gates_only_main_fields envC10 (some 9) entryC10 [] fsC10 rfl rfl
    (by decide) (by decide)
  exact ⟨h.1, h.2.1, h.2.2⟩

lemma fencePlain_eq : fencePlain = [btk, btk, btk] := by decide

lemma fenceJson_eq : fenceJson = [btk, btk, btk, 'j', 's', 'o', 'n'] := by decide

lemma fenceJson_decomp : fenceJson = fencePlain ++ jsonTail := by decide

lemma isPre_append (p u : List Char) : isPre p (p ++ u) = true := by
  induction p with
  | nil => rfl
  | cons a q ih => simp [isPre, ih]

lemma isPre_exists {p s : List Char} (h : isPre p s = true) : ∃ u, s = p ++ u := by
  induction p generalizing s with
  | nil => exact ⟨s, rfl⟩
  | cons a q ih =>
    cases s with
    | nil => simp [isPre] at h
    | cons b t =>
      simp [isPre] at h
      obtain ⟨hab, ht⟩ := h
      obtain ⟨u, hu⟩ := ih ht
      exact ⟨u, by rw [hu, hab]; rfl⟩

lemma isPre_append_cancel (p q t : List Char) : isPre (p ++ q) (p ++ t) = isPre q t := by
  induction p with
  | nil => rfl
  | cons a p' ih => simp [isPre, ih]

lemma isPre_append_false (p : List Char) :
    ∀ (r X : List Char), isPre p r = false → (∀ c ∈ X, c ∉ p) → isPre p (r ++ X) = false := by
  induction p with
  | nil => intro r X h _; simp [isPre] at h
  | cons a q ih =>
    intro r X h hX
    cases r with
    | nil =>
      cases X with
      | nil => rfl
      | cons x t =>
        have hx : x ∉ a :: q := hX x (by simp)
        have hax : (a == x) = false := by
          cases hab : a == x
          · rfl
          · exact absurd (List.mem_cons.mpr (Or.inl (beq_iff_eq.mp hab).symm)) hx
        show isPre (a :: q) (x :: t) = false
        simp [isPre, hax]
    | cons b r' =>
      cases hab : a == b
      · show isPre (a :: q) (b :: (r' ++ X)) = false
        simp [isPre, hab]
      · have h' : isPre q r' = false := by
          cases hqr : isPre q r'
          · rfl
          · rw [show isPre (a :: q) (b :: r') = (a == b && isPre q r') from rfl, hab, hqr] at h
            exact absurd h (by simp)
        have hrec := ih r' X h' (fun c hc hq => hX c hc (List.mem_cons_of_mem a hq))
        show isPre (a :: q) (b :: (r' ++ X)) = false
        rw [show isPre (a :: q) (b :: (r' ++ X)) = (a == b && isPre q (r' ++ X)) from rfl,
          hab, hrec]
        rfl

lemma stripGo_nil (f : Nat) : stripGo f [] = [] := by
  cases f with
  | zero => rfl
  | succ f => rfl

lemma fenceJson_length : fenceJson.length = 7 := by decide

lemma fencePlain_length : fencePlain.length = 3 := by decide

lemma stripGo_congr : ∀ (f g : Nat) (s : List Char),
    s.length ≤ f → s.length ≤ g → stripGo f s = stripGo g s := by
  intro f
  induction f with
  | zero =>
    intro g s hf _
    have hs : s = [] := List.eq_nil_of_length_eq_zero (Nat.le_zero.mp hf)
    subst hs
    rw [stripGo_nil, stripGo_nil]
  | succ f ih =>
    intro g s hf hg
    cases s with
    | nil => rw [stripGo_nil, stripGo_nil]
    | cons c t =>
      cases g with
      | zero => simp at hg
      | succ g =>
        simp only [stripGo]
        by_cases h7 : isPre fenceJson (c :: t) = true
        · rw [if_pos h7, if_pos h7]
          obtain ⟨u, hu⟩ := isPre_exists h7
          have hlen : (c :: t).length = 7 + u.length := by
            rw [hu, List.length_append, fenceJson_length]
          apply ih
          · rw [List.length_drop]; omega
          · rw [List.length_drop]; omega
        · rw [if_neg h7, if_neg h7]
          by_cases h3 : isPre fencePlain (c :: t) = true
          · rw [if_pos h3, if_pos h3]
            obtain ⟨u, hu⟩ := isPre_exists h3
            have hlen : (c :: t).length = 3 + u.length := by
              rw [hu, List.length_append, fencePlain_length]
            apply ih
            · rw [List.length_drop]; omega
            · rw [List.length_drop]; omega
          · rw [if_neg h3, if_neg h3]
            have hlt : t.length ≤ f := by simp at hf; omega
            have hgt : t.length ≤ g := by simp at hg; omega
            exact congrArg (c :: ·) (ih g t hlt hgt)

lemma stripFences_step_json (s : List Char) (h : isPre fenceJson s = true) :
    stripFences s = stripFences (s.drop 7) := by
  obtain ⟨u, hu⟩ := isPre_exists h
  subst hu
  have hdrop : (fenceJson ++ u).drop 7 = u := by
    rw [show (7 : Nat) = fenceJson.length from by decide]
    exact List.drop_left _ _
  rw [hdrop]
  show stripGo (fenceJson ++ u).length (fenceJson ++ u) = stripGo u.length u
  have hl : (fenceJson ++ u).length = Nat.succ (u.length + 6) := by
    rw [List.length_append, fenceJson_length]; omega
  rw [hl]
  simp only [stripGo]
  rw [if_pos (isPre_append fenceJson u), hdrop]
  exact stripGo_congr (u.length + 6) u.length u (by omega) le_rfl

lemma stripFences_step_plain (s : List Char) (h7 : isPre fenceJson s = false)
    (h3 : isPre fencePlain s = true) :
    stripFences s = stripFences (s.drop 3) := by
  obtain ⟨u, hu⟩ := isPre_exists h3
  subst hu
  have hdrop : (fencePlain ++ u).drop 3 = u := by
    rw [show (3 : Nat) = fencePlain.length from by decide]
    exact List.drop_left _ _
  rw [hdrop]
  show stripGo (fencePlain ++ u).length (fencePlain ++ u) = stripGo u.length u
  have hl : (fencePlain ++ u).length = Nat.succ (u.length + 2) := by
    rw [List.length_append, fencePlain_length]; omega
  rw [hl]
  simp only [stripGo]
  rw [if_neg (by simp [h7]), if_pos (isPre_append fencePlain u), hdrop]
  exact stripGo_congr (u.length + 2) u.length u (by omega) le_rfl

lemma isPre_plain_of_json {s : List Char} (h : isPre fenceJson s = true) :
    isPre fencePlain s = true := by
  obtain ⟨u, hu⟩ := isPre_exists h
  rw [hu, fenceJson_decomp, List.append_assoc]
  exact isPre_append _ _

lemma stripFences_cons (c : Char) (t : List Char)
    (h3 : isPre fencePlain (c :: t) = false) :
    stripFences (c :: t) = c :: stripFences t := by
  have h7 : isPre fenceJson (c :: t) = false := by
    cases hj : isPre fenceJson (c :: t)
    · rfl
    · exact absurd (isPre_plain_of_json hj) (by simp [h3])
  show stripGo (Nat.succ t.length) (c :: t) = c :: stripFences t
  simp only [stripGo]
  rw [if_neg (by simp [h7]), if_neg (by simp [h3])]
  rfl

lemma ws_not_in_plain {c : Char} (hc : isWs c = true) : c ∉ fencePlain := by
  intro hmem
  rw [fencePlain_eq] at hmem
  simp at hmem
  subst hmem
  exact absurd hc (by decide)

lemma ws_not_in_jsonTail {c : Char} (hc : isWs c = true) : c ∉ jsonTail := by
  intro hmem
  rw [show jsonTail = ['j', 's', 'o', 'n'] from by decide] at hmem
  simp at hmem
  rcases hmem with h | h | h | h <;> subst h <;> exact absurd hc (by decide)

lemma ws_head_not_plain (c : Char) (t : List Char) (hc : isWs c = true) :
    isPre fencePlain (c :: t) = false := by
  have hbc : (btk == c) = false := by
    cases hb : btk == c
    · rfl
    · rw [← beq_iff_eq.mp hb] at hc
      exact absurd hc (by decide)
  rw [fencePlain_eq]
  simp [isPre, hbc]

lemma strip_ws_front : ∀ (w s : List Char), (∀ c ∈ w, isWs c = true) →
    stripFences (w ++ s) = w ++ stripFences s := by
  intro w
  induction w with
  | nil => intro s _; rfl
  | cons c w' ih =>
    intro s hw
    have hc : isWs c = true := hw c (by simp)
    show stripFences (c :: (w' ++ s)) = c :: (w' ++ stripFences s)
    rw [stripFences_cons c (w' ++ s) (ws_head_not_plain c _ hc)]
    rw [ih s (fun d hd => hw d (by simp [hd]))]

lemma strip_ws_suffix : ∀ (n : Nat) (s w : List Char), s.length ≤ n →
    (∀ c ∈ w, isWs c = true) → stripFences (s ++ w) = stripFences s ++ w := by
  intro n
  induction n with
  | zero =>
    intro s w hs hw
    have : s = [] := List.eq_nil_of_length_eq_zero (Nat.le_zero.mp hs)
    subst this
    show stripFences w = stripFences [] ++ w
    have := strip_ws_front w [] hw
    simpa [show stripFences ([] : List Char) = [] from rfl] using this
  | succ n ih =>
    intro s w hs hw
    by_cases h7 : isPre fenceJson s = true
    · obtain ⟨u, hu⟩ := isPre_exists h7
      subst hu
      have d1 : ((fenceJson ++ u) ++ w).drop 7 = u ++ w := by
        rw [List.append_assoc, show (7 : Nat) = fenceJson.length from by decide]
        exact List.drop_left _ _
      have d2 : (fenceJson ++ u).drop 7 = u := by
        rw [show (7 : Nat) = fenceJson.length from by decide]
        exact List.drop_left _ _
      have hj2 : isPre fenceJson ((fenceJson ++ u) ++ w) = true := by
        rw [List.append_assoc]; exact isPre_append _ _
      rw [stripFences_step_json _ hj2, d1, stripFences_step_json _ h7, d2]
      have hlu : u.length ≤ n := by
        have := hs
        rw [List.length_append, fenceJson_length] at this
        omega
      exact ih u w hlu hw
    · have h7f : isPre fenceJson s = false := by
        cases hj : isPre fenceJson s
        · rfl
        · exact absurd hj h7
      by_cases h3 : isPre fencePlain s = true
      · obtain ⟨r, hr⟩ := isPre_exists h3
        subst hr
        have hjr : isPre jsonTail r = false := by
          cases hj : isPre jsonTail r
          · rfl
          · rw [fenceJson_decomp, isPre_append_cancel, hj] at h7f
            exact absurd h7f (by simp)
        have h7' : isPre fenceJson ((fencePlain ++ r) ++ w) = false := by
          rw [List.append_assoc, fenceJson_decomp, isPre_append_cancel]
          exact isPre_append_false jsonTail r w hjr (fun c hc => ws_not_in_jsonTail (hw c hc))
        have h3' : isPre fencePlain ((fencePlain ++ r) ++ w) = true := by
          rw [List.append_assoc]; exact isPre_append _ _
        have d1 : ((fencePlain ++ r) ++ w).drop 3 = r ++ w := by
          rw [List.append_assoc, show (3 : Nat) = fencePlain.length from by decide]
          exact List.drop_left _ _
        have d2 : (fencePlain ++ r).drop 3 = r := by
          rw [show (3 : Nat) = fencePlain.length from by decide]
          exact List.drop_left _ _
        rw [stripFences_step_plain _ h7' h3', d1, stripFences_step_plain _ h7f h3, d2]
        have hlr : r.length ≤ n := by
          have := hs
          rw [List.length_append, fencePlain_length] at this
          omega
        exact ih r w hlr hw
      · have h3f : isPre fencePlain s = false := by
          cases hj : isPre fencePlain s
          · rfl
          · exact absurd hj h3
        cases s with
        | nil =>
          show stripFences w = stripFences [] ++ w
          simpa [show stripFences ([] : List Char) = [] from rfl] using
            strip_ws_front w [] hw
        | cons c t =>
          have h3w : isPre fencePlain ((c :: t) ++ w) = false :=
            isPre_append_false fencePlain (c :: t) w h3f
              (fun d hd => ws_not_in_plain (hw d hd))
          show stripFences (c :: (t ++ w)) = stripFences (c :: t) ++ w
          rw [stripFences_cons c (t ++ w) h3w, stripFences_cons c t h3f]
          have hlt : t.length ≤ n := by simp at hs; omega
          rw [ih t w hlt hw]
          rfl

lemma btk_not_in_jsonTail : btk ∉ jsonTail := by decide

lemma strip_append_fence : ∀ (n : Nat) (s : List Char), s.length ≤ n →
    stripFences (s ++ fencePlain) = stripFences s := by
  intro n
  induction n with
  | zero =>
    intro s hs
    have : s = [] := List.eq_nil_of_length_eq_zero (Nat.le_zero.mp hs)
    subst this
    decide
  | succ n ih =>
    intro s hs
    by_cases h7 : isPre fenceJson s = true
    · obtain ⟨u, hu⟩ := isPre_exists h7
      subst hu
      have d1 : ((fenceJson ++ u) ++ fencePlain).drop 7 = u ++ fencePlain := by
        rw [List.append_assoc, show (7 : Nat) = fenceJson.length from by decide]
        exact List.drop_left _ _
      have d2 : (fenceJson ++ u).drop 7 = u := by
        rw [show (7 : Nat) = fenceJson.length from by decide]
        exact List.drop_left _ _
      have hj2 : isPre fenceJson ((fenceJson ++ u) ++ fencePlain) = true := by
        rw [List.append_assoc]; exact isPre_append _ _
      rw [stripFences_step_json _ hj2, d1, stripFences_step_json _ h7, d2]
      have hlu : u.length ≤ n := by
        have := hs
        rw [List.length_append, fenceJson_length] at this
        omega
      exact ih u hlu
    · have h7f : isPre fenceJson s = false := by
        cases hj : isPre fenceJson s
        · rfl
        · exact absurd hj h7
      by_cases h3 : isPre fencePlain s = true
      · obtain ⟨r, hr⟩ := isPre_exists h3
        subst hr
        have hjr : isPre jsonTail r = false := by
          cases hj : isPre jsonTail r
          · rfl
          · rw [fenceJson_decomp, isPre_append_cancel, hj] at h7f
            exact absurd h7f (by simp)
        have h7' : isPre fenceJson ((fencePlain ++ r) ++ fencePlain) = false := by
          rw [List.append_assoc, fenceJson_decomp, isPre_append_cancel]
          exact isPre_append_false jsonTail r fencePlain hjr
            (fun c hc => by
              intro hmem
              exact absurd hmem (by
                rw [fencePlain_eq] at hc
                simp at hc
                subst hc
                exact btk_not_in_jsonTail))
        have h3' : isPre fencePlain ((fencePlain ++ r) ++ fencePlain) = true := by
          rw [List.append_assoc]; exact isPre_append _ _
        have d1 : ((fencePlain ++ r) ++ fencePlain).drop 3 = r ++ fencePlain := by
          rw [List.append_assoc, show (3 : Nat) = fencePlain.length from by decide]
          exact List.drop_left _ _
        have d2 : (fencePlain ++ r).drop 3 = r := by
          rw [show (3 : Nat) = fencePlain.length from by decide]
          exact List.drop_left _ _
        rw [stripFences_step_plain _ h7' h3', d1, stripFences_step_plain _ h7f h3, d2]
        have hlr : r.length ≤ n := by
          have := hs
          rw [List.length_append, fencePlain_length] at this
          omega
        exact ih r hlr
      · have h3f : isPre fencePlain s = false := by
          cases hj : isPre fencePlain s
          · rfl
          · exact absurd hj h3
        cases s with
        | nil => decide
        | cons c t =>
          cases h3w : isPre fencePlain ((c :: t) ++ fencePlain)
          · show stripFences (c :: (t ++ fencePlain)) = stripFences (c :: t)
            rw [stripFences_cons c (t ++ fencePlain) h3w, stripFences_cons c t h3f]
            have hlt : t.length ≤ n := by simp at hs; omega
            rw [ih t hlt]
          · obtain ⟨u, hu⟩ := isPre_exists h3w
            cases t with
            | nil =>
              rw [fencePlain_eq] at hu
              simp at hu
              obtain ⟨hc, -⟩ := hu
              subst hc
              decide
            | cons c2 t2 =>
              cases t2 with
              | nil =>
                rw [fencePlain_eq] at hu
                simp at hu
                obtain ⟨hc, hc2, -⟩ := hu
                subst hc
                subst hc2
                decide
              | cons c3 t3 =>
                exfalso
                rw [fencePlain_eq] at hu
                simp at hu
                obtain ⟨hc, hc2, hc3, -⟩ := hu
                subst hc
                subst hc2
                subst hc3
                rw [fencePlain_eq] at h3f
                simp [isPre] at h3f

lemma trimL_ws_append : ∀ (w s : List Char), (∀ c ∈ w, isWs c = true) →
    trimL (w ++ s) = trimL s := by
  intro w
  induction w with
  | nil => intro s _; rfl
  | cons c w' ih =>
    intro s hw
    show trimL (c :: (w' ++ s)) = trimL s
    unfold trimL
    rw [List.dropWhile_cons, if_pos (by simp [hw c (by simp)])]
    exact ih s (fun d hd => hw d (by simp [hd]))

lemma trimChars_ws_append (w s : List Char) (hw : ∀ c ∈ w, isWs c = true) :
    trimChars (w ++ s) = trimChars s := by
  unfold trimChars
  rw [trimL_ws_append w s hw]

lemma trimR_append_ws (s w : List Char) (hw : ∀ c ∈ w, isWs c = true) :
    trimR (s ++ w) = trimR s := by
  unfold trimR
  rw [List.reverse_append, trimL_ws_append w.reverse s.reverse
    (fun c hc => hw c (List.mem_reverse.mp hc))]

lemma trimChars_append_ws : ∀ (s w : List Char), (∀ c ∈ w, isWs c = true) →
    trimChars (s ++ w) = trimChars s := by
  intro s
  induction s with
  | nil =>
    intro w hw
    show trimChars w = trimChars []
    unfold trimChars trimL
    rw [List.dropWhile_eq_nil_iff.mpr hw]
    rfl
  | cons c t ih =>
    intro w hw
    cases hc : isWs c
    · show trimChars (c :: (t ++ w)) = trimChars (c :: t)
      unfold trimChars trimL
      rw [List.dropWhile_cons, List.dropWhile_cons, if_neg (by simp [hc]),
        if_neg (by simp [hc])]
      show trimR ((c :: t) ++ w) = trimR (c :: t)
      exact trimR_append_ws (c :: t) w hw
    · show trimChars (c :: (t ++ w)) = trimChars (c :: t)
      unfold trimChars trimL
      rw [List.dropWhile_cons, List.dropWhile_cons, if_pos (by simp [hc]),
        if_pos (by simp [hc])]
      exact ih w hw

lemma all_ws_takeWhile (s : List Char) : ∀ c ∈ s.takeWhile isWs, isWs c = true := by
  intro c hc
  exact List.mem_takeWhile_imp hc

lemma trim_decomp (X : List Char) : ∃ w1 w2 : List Char,
    (∀ c ∈ w1, isWs c = true) ∧ (∀ c ∈ w2, isWs c = true)
    ∧ X = w1 ++ (trimChars X ++ w2) := by
  refine ⟨X.takeWhile isWs, ((X.dropWhile isWs).reverse.takeWhile isWs).reverse,
    all_ws_takeWhile X, ?_, ?_⟩
  · intro c hc
    exact all_ws_takeWhile _ c (List.mem_reverse.mp hc)
  · have h1 : X = X.takeWhile isWs ++ X.dropWhile isWs :=
      (List.takeWhile_append_dropWhile isWs X).symm
    have h2 : X.dropWhile isWs
        = trimChars X ++ ((X.dropWhile isWs).reverse.takeWhile isWs).reverse := by
      have h3 : (X.dropWhile isWs).reverse
          = (X.dropWhile isWs).reverse.takeWhile isWs
            ++ (X.dropWhile isWs).reverse.dropWhile isWs :=
        (List.takeWhile_append_dropWhile isWs _).symm
      have h4 : X.dropWhile isWs = ((X.dropWhile isWs).reverse).reverse :=
        (List.reverse_reverse _).symm
      calc X.dropWhile isWs
      _ = ((X.dropWhile isWs).reverse).reverse := h4
      _ = ((X.dropWhile isWs).reverse.takeWhile isWs
            ++ (X.dropWhile isWs).reverse.dropWhile isWs).reverse := by rw [← h3]
      _ = ((X.dropWhile isWs).reverse.dropWhile isWs).reverse
            ++ ((X.dropWhile isWs).reverse.takeWhile isWs).reverse := by
            rw [List.reverse_append]
      _ = trimChars X ++ ((X.dropWhile isWs).reverse.takeWhile isWs).reverse := rfl
    calc X = X.takeWhile isWs ++ X.dropWhile isWs := h1
    _ = X.takeWhile isWs
          ++ (trimChars X ++ ((X.dropWhile isWs).reverse.takeWhile isWs).reverse) := by
          rw [← h2]

lemma trim_strip_trim (X : List Char) :
    trimChars (stripFences (trimChars X)) = trimChars (stripFences X) := by
  obtain ⟨w1, w2, hw1, hw2, hX⟩ := trim_decomp X
  conv_rhs => rw [hX]
  rw [strip_ws_front w1 (trimChars X ++ w2) hw1,
    strip_ws_suffix (trimChars X).length (trimChars X) w2 le_rfl hw2,
    trimChars_ws_append w1 _ hw1, trimChars_append_ws _ w2 hw2]

lemma trim_fenceData (X : List Char) :
    trimChars (fenceJson ++ (X ++ fencePlain)) = fenceJson ++ (X ++ fencePlain) := by
  have hne : ¬ (isWs btk = true) := by decide
  have hL : trimL (fenceJson ++ (X ++ fencePlain)) = fenceJson ++ (X ++ fencePlain) := by
    conv_lhs => rw [fenceJson_eq]
    unfold trimL
    rw [show ([btk, btk, btk, 'j', 's', 'o', 'n'] : List Char) ++ (X ++ fencePlain)
        = btk :: ([btk, btk, 'j', 's', 'o', 'n'] ++ (X ++ fencePlain)) from rfl]
    rw [List.dropWhile_cons, if_neg hne, fenceJson_eq]
    rfl
  have hR : trimR (fenceJson ++ (X ++ fencePlain)) = fenceJson ++ (X ++ fencePlain) := by
    unfold trimR
    have hrev : (fenceJson ++ (X ++ fencePlain)).reverse
        = btk :: ((btk :: btk :: X.reverse) ++ fenceJson.reverse) := by
      rw [List.reverse_append, List.reverse_append,
        show fencePlain.reverse = [btk, btk, btk] from by decide]
      rfl
    rw [hrev]
    unfold trimL
    rw [List.dropWhile_cons, if_neg hne, ← hrev, List.reverse_reverse]
  unfold trimChars
  rw [hL, hR]

/-- Claim C9: wrapping any completion body in code fences and running the
generator's strip-and-parse pipeline yields the same string handed to the
parser as for the unfenced body — and hence the same parsed object under
any parser. -/
theorem jsonExtract_fence_invariant (body : String) :
    jsonExtract (fenceWrap body) = jsonExtract body
    ∧ ∀ parse : String → Option Json,
        parse (jsonExtract (fenceWrap body)) = parse (jsonExtract body) := by
  have hdata : (fenceWrap body).data = fenceJson ++ (body.data ++ fencePlain) := by
    show ("```json" ++ body ++ "```").data = _
    rw [String.data_append, String.data_append, List.append_assoc]
    rfl
  have hstrip : stripFences (fenceJson ++ (body.data ++ fencePlain))
      = stripFences body.data := by
    rw [stripFences_step_json _ (isPre_append _ _)]
    rw [show (fenceJson ++ (body.data ++ fencePlain)).drop 7 = body.data ++ fencePlain from by
      rw [show (7 : Nat) = fenceJson.length from by decide]
      exact List.drop_left _ _]
    exact strip_append_fence body.data.length body.data le_rfl
  have key : trimChars (stripFences (trimChars (fenceWrap body).data))
      = trimChars (stripFences (trimChars body.data)) := by
    rw [hdata, trim_fenceData, hstrip]
    exact (trim_strip_trim body.data).symm
  refine ⟨?_, fun parse => ?_⟩
  · unfold jsonExtract
    rw [key]
  · unfold jsonExtract
    rw [key]

/-- Claim C1, witness: the isolation equation applied at a concrete split
of the batch scenario. -/
theorem processEntries_failure_isolation_witness :
    processEntries envC1 ([some 1] ++ [some 2, some 3])
      = processEntries envC1 [some 1] ++ processEntries envC1 [some 2, some 3] :=
  processEntries_failure_isolation.1 envC1 [some 1] [some 2, some 3]

/-- Claim C9, witness: a concrete fenced body extracts to the same string
as the unfenced body. -/
theorem jsonExtract_fence_invariant_witness :
    jsonExtract (fenceWrap ("null")) = jsonExtract ("null") :=
  (jsonExtract_fence_invariant ("null")).1
